import Mathlib

/-!
Verification of `flask_pydantic/openapi.py` against its design document.

The module is shallowly embedded: Python dictionaries become association
lists (`JDict`) over a JSON-like value type (`JVal`), preserving insertion
order and Python's assignment semantics (update-in-place on an existing
key, append otherwise).  Python functions become Lean functions over these
types; the recursive dictionary merge recurses on the size of the base,
and the template-parser loop takes a fuel argument always instantiated
above the remaining input length, where it is irrelevant.
-/

set_option autoImplicit false

namespace FlaskPydantic

/-- JSON-like values: the payloads stored in the spec dictionaries. -/
inductive JVal where
  | str : String → JVal
  | int : Int → JVal
  | bool : Bool → JVal
  | arr : List JVal → JVal
  | dict : List (String × JVal) → JVal
deriving Repr

/-- A Python `dict` with string keys, as an insertion-ordered association
list with unique keys (uniqueness is a hypothesis where it matters). -/
abbrev JDict := List (String × JVal)

variable {α : Type}

/-- First-occurrence lookup: `d[k]` / `d.get(k)`. -/
def lookupKey (k : String) : List (String × α) → Option α
  | [] => none
  | (k', v) :: d => if k' = k then some v else lookupKey k d

/-- `k in d`. -/
def containsKey (k : String) : List (String × α) → Bool
  | [] => false
  | (k', _) :: d => k' = k || containsKey k d

/-- `d.pop(k)` (the removal part): removes the first entry with key `k`. -/
def removeKey (k : String) : List (String × α) → List (String × α)
  | [] => []
  | (k', v) :: d => if k' = k then d else (k', v) :: removeKey k d

/-- `d[k] = v`: update in place when the key exists, else append. -/
def dictInsert (k : String) (v : α) : List (String × α) → List (String × α)
  | [] => [(k, v)]
  | (k', v') :: d => if k' = k then (k', v) :: d else (k', v') :: dictInsert k v d

/-- The keys of a dictionary, in order. -/
def dKeys (d : List (String × α)) : List String := d.map Prod.fst

/-- How many entries carry key `k` (1 for every key of a real dict). -/
def countKey (k : String) : List (String × α) → Nat
  | [] => 0
  | (k', _) :: d => (if k' = k then 1 else 0) + countKey k d

@[simp] theorem lookupKey_nil (k : String) : lookupKey k ([] : List (String × α)) = none := rfl

@[simp] theorem lookupKey_cons (k k' : String) (v : α) (d : List (String × α)) :
    lookupKey k ((k', v) :: d) = if k' = k then some v else lookupKey k d := rfl

@[simp] theorem containsKey_nil (k : String) : containsKey k ([] : List (String × α)) = false := rfl

@[simp] theorem containsKey_cons (k k' : String) (v : α) (d : List (String × α)) :
    containsKey k ((k', v) :: d) = (decide (k' = k) || containsKey k d) := rfl

theorem containsKey_eq_mem (k : String) (d : List (String × α)) :
    containsKey k d = true ↔ k ∈ dKeys d := by
  induction d with
  | nil => simp [dKeys]
  | cons e d ih =>
    obtain ⟨k', v⟩ := e
    by_cases h : k' = k
    · subst h
      simp [dKeys]
    · simp [dKeys, h, Ne.symm h, ih]

theorem lookupKey_isSome_iff (k : String) (d : List (String × α)) :
    (lookupKey k d).isSome = containsKey k d := by
  induction d with
  | nil => rfl
  | cons e d ih =>
    obtain ⟨k', v⟩ := e
    by_cases h : k' = k <;> simp [h, ih]

theorem lookupKey_eq_none_of_not_contains {k : String} {d : List (String × α)}
    (h : containsKey k d = false) : lookupKey k d = none := by
  cases hl : lookupKey k d with
  | none => rfl
  | some v =>
    have := lookupKey_isSome_iff k d
    rw [hl, h] at this
    simp at this

@[simp] theorem lookupKey_append_left {k : String} {d₁ d₂ : List (String × α)} {v : α}
    (h : lookupKey k d₁ = some v) : lookupKey k (d₁ ++ d₂) = some v := by
  induction d₁ with
  | nil => simp at h
  | cons e d ih =>
    obtain ⟨k', v'⟩ := e
    by_cases hk : k' = k <;> simp [hk] at h ⊢ <;> simp_all

theorem lookupKey_append_right {k : String} {d₁ d₂ : List (String × α)}
    (h : lookupKey k d₁ = none) : lookupKey k (d₁ ++ d₂) = lookupKey k d₂ := by
  induction d₁ with
  | nil => simp
  | cons e d ih =>
    obtain ⟨k', v'⟩ := e
    by_cases hk : k' = k <;> simp [hk] at h ⊢ <;> simp_all

@[simp] theorem lookupKey_dictInsert_self (k : String) (v : α) (d : List (String × α)) :
    lookupKey k (dictInsert k v d) = some v := by
  induction d with
  | nil => simp [dictInsert]
  | cons e d ih =>
    obtain ⟨k', v'⟩ := e
    by_cases hk : k' = k <;> simp [dictInsert, hk, ih]

@[simp] theorem lookupKey_dictInsert_other {k q : String} (v : α) (d : List (String × α))
    (h : q ≠ k) : lookupKey q (dictInsert k v d) = lookupKey q d := by
  induction d with
  | nil => simp [dictInsert, Ne.symm h]
  | cons e d ih =>
    obtain ⟨k', v'⟩ := e
    by_cases hk : k' = k
    · subst hk
      simp [dictInsert, Ne.symm h]
    · simp [dictInsert, hk, ih]

@[simp] theorem containsKey_dictInsert (q k : String) (v : α) (d : List (String × α)) :
    containsKey q (dictInsert k v d) = (decide (k = q) || containsKey q d) := by
  induction d with
  | nil => simp [dictInsert]
  | cons e d ih =>
    obtain ⟨k', v'⟩ := e
    by_cases hk : k' = k
    · subst hk
      by_cases hq : k' = q <;> simp [dictInsert, hq]
    · simp only [dictInsert, if_neg hk, containsKey_cons, ih]
      cases h1 : decide (k' = q) <;> cases h2 : decide (k = q) <;> simp

theorem countKey_dictInsert_of_contains {k : String} (v : α) :
    ∀ {d : List (String × α)}, containsKey k d = true →
      countKey k (dictInsert k v d) = countKey k d := by
  intro d
  induction d with
  | nil => intro h; simp at h
  | cons e d ih =>
    obtain ⟨k', v'⟩ := e
    intro h
    by_cases hk : k' = k
    · subst hk
      simp [dictInsert, countKey]
    · have h' : containsKey k d = true := by simpa [hk] using h
      simp [dictInsert, hk, countKey, ih h']

theorem countKey_dictInsert_of_not_contains {k : String} (v : α) :
    ∀ {d : List (String × α)}, containsKey k d = false →
      countKey k (dictInsert k v d) = countKey k d + 1 := by
  intro d
  induction d with
  | nil => intro _; simp [dictInsert, countKey]
  | cons e d ih =>
    obtain ⟨k', v'⟩ := e
    intro h
    simp only [containsKey_cons, Bool.or_eq_false_iff, decide_eq_false_iff_not] at h
    simp [dictInsert, h.1, countKey, ih h.2]

theorem countKey_dictInsert_other {k q : String} (v : α) (d : List (String × α))
    (h : q ≠ k) : countKey q (dictInsert k v d) = countKey q d := by
  induction d with
  | nil => simp [dictInsert, countKey, Ne.symm h]
  | cons e d ih =>
    obtain ⟨k', v'⟩ := e
    by_cases hk : k' = k
    · subst hk
      simp [dictInsert, countKey]
    · simp [dictInsert, hk, countKey, ih]

/-! ## Recursive merge (`merge_dicts`)

The Python function walks `d1.items()`, popping each shared key out of
`d2`, recursing when both values are dicts, and finally runs
`d1.update(d2)` on the residual overlay.  `mergeLoop` performs the walk,
returning the rewritten base entries together with the residual overlay;
`merge_dicts` appends the two (the `update` step), and `overlayResidual`
is the final state of the (mutated) overlay argument. -/

/-- `v` is a Python `dict` (`isinstance(v, dict)`). -/
def isDictV : JVal → Bool
  | .dict _ => true
  | _ => false

/-- One walk of `merge_dicts` over the base entries: returns
`(rewritten base entries, residual overlay)`. -/
def mergeLoop : JDict → JDict → JDict × JDict
  | [], d2 => ([], d2)
  | (k, v) :: rest, d2 =>
    match lookupKey k d2 with
    | none =>
      let p := mergeLoop rest d2
      ((k, v) :: p.1, p.2)
    | some v2 =>
      let d2' := removeKey k d2
      let newV :=
        match v, v2 with
        | JVal.dict dv, JVal.dict dv2 =>
          let q := mergeLoop dv dv2
          JVal.dict (q.1 ++ q.2)
        | _, v2 => v2
      let p := mergeLoop rest d2'
      ((k, newV) :: p.1, p.2)
termination_by d1 _ => sizeOf d1
decreasing_by all_goals (simp; try omega)

/-- `merge_dicts(d1, d2)`: the value of the (mutated and returned) base. -/
def merge_dicts (d1 d2 : JDict) : JDict :=
  let p := mergeLoop d1 d2
  p.1 ++ p.2

/-- The final state of the overlay argument after `merge_dicts(d1, d2)`:
every key shared with the base has been popped. -/
def overlayResidual (d1 d2 : JDict) : JDict :=
  (mergeLoop d1 d2).2

theorem lookupKey_removeKey_other {k q : String} (d : JDict) (h : q ≠ k) :
    lookupKey q (removeKey k d) = lookupKey q d := by
  induction d with
  | nil => simp [removeKey]
  | cons e d ih =>
    obtain ⟨k', v⟩ := e
    by_cases hk : k' = k
    · subst hk
      simp [removeKey, Ne.symm h]
    · simp [removeKey, hk, ih]

theorem removeKey_sublist (k : String) (d : JDict) : (removeKey k d).Sublist d := by
  induction d with
  | nil => simp [removeKey]
  | cons e d ih =>
    obtain ⟨k', v⟩ := e
    by_cases hk : k' = k
    · simp [removeKey, hk]
    · simpa [removeKey, hk] using ih

theorem dKeys_sublist_of_sublist {d d' : JDict} (h : d'.Sublist d) :
    (dKeys d').Sublist (dKeys d) := by
  simpa [dKeys] using h.map Prod.fst

theorem nodup_dKeys_removeKey {k : String} {d : JDict} (h : (dKeys d).Nodup) :
    (dKeys (removeKey k d)).Nodup :=
  (dKeys_sublist_of_sublist (removeKey_sublist k d)).nodup h

theorem ne_of_lookup_none {k : String} {d : JDict} (h : lookupKey k d = none) :
    ∀ e ∈ d, e.1 ≠ k := by
  induction d with
  | nil => simp
  | cons e d ih =>
    obtain ⟨k', v⟩ := e
    intro e' he'
    by_cases hk : k' = k
    · simp [hk] at h
    · rcases List.mem_cons.1 he' with rfl | hmem
      · exact hk
      · exact ih (by simpa [hk] using h) e' hmem

theorem removeKey_eq_filter {k : String} {d : JDict} (h : (dKeys d).Nodup) :
    removeKey k d = d.filter (fun e => decide (e.1 ≠ k)) := by
  induction d with
  | nil => simp [removeKey]
  | cons e d ih =>
    obtain ⟨k', v⟩ := e
    simp only [dKeys, List.map_cons, List.nodup_cons] at h
    by_cases hk : k' = k
    · subst hk
      have : ∀ e ∈ d, e.1 ≠ k' := by
        intro e he hek
        exact h.1 (hek ▸ List.mem_map_of_mem Prod.fst he)
      rw [removeKey, if_pos rfl, List.filter_cons_of_neg (by simp)]
      exact (List.filter_eq_self.2 (fun e he => by simp [this e he])).symm
    · rw [removeKey, if_neg hk, List.filter_cons_of_pos (by simp [hk]), ih h.2]

/-- The residual overlay after the walk: exactly the overlay entries whose
key does not occur in the base (every shared key is popped). -/
theorem mergeLoop_snd (d1 d2 : JDict) :
    (dKeys d2).Nodup →
      (mergeLoop d1 d2).2 = d2.filter (fun e => !containsKey e.1 d1) := by
  induction d1, d2 using mergeLoop.induct with
  | case1 d2 =>
    intro _
    simp [mergeLoop, containsKey]
  | case2 k v rest d2 hlk ih =>
    intro h2
    have hne := ne_of_lookup_none hlk
    simp only [mergeLoop, hlk, ih h2]
    refine List.filter_congr ?_
    intro e he
    have hek := Ne.symm (hne e he)
    simp [hek]
  | case3 k v rest d2 v2 hlk d2p ihv ih =>
    intro h2
    have h2' : (dKeys (removeKey k d2)).Nodup := nodup_dKeys_removeKey h2
    have ihh : (mergeLoop rest (removeKey k d2)).2
        = (removeKey k d2).filter (fun e => !containsKey e.1 rest) := ih h2'
    simp only [mergeLoop, hlk]
    rw [ihh, removeKey_eq_filter h2, List.filter_filter]
    refine (List.filter_congr ?_).symm
    intro e he
    by_cases hek : e.1 = k
    · simp [hek, containsKey]
    · simp [hek, Ne.symm hek, containsKey]

/-- Lookup in the merged base, by cases on where the key lives. -/
theorem lookup_mergeLoop (d1 d2 : JDict) (q : String) :
    (dKeys d2).Nodup →
      lookupKey q ((mergeLoop d1 d2).1 ++ (mergeLoop d1 d2).2) =
        match lookupKey q d1, lookupKey q d2 with
        | some (JVal.dict a), some (JVal.dict b) =>
          some (JVal.dict ((mergeLoop a b).1 ++ (mergeLoop a b).2))
        | some _, some v2 => some v2
        | some v, none => some v
        | none, o => o := by
  induction d1, d2 using mergeLoop.induct with
  | case1 d2 =>
    intro _
    simp [mergeLoop]
  | case2 k v rest d2 hlk ih =>
    intro h2
    by_cases hq : q = k
    · subst hq
      simp only [mergeLoop, hlk, List.cons_append, lookupKey_cons, if_pos rfl]
      cases v <;> rfl
    · simp only [mergeLoop, hlk, List.cons_append, lookupKey_cons,
        if_neg (Ne.symm hq)]
      exact ih h2
  | case3 k v rest d2 v2 hlk d2p ihv ih =>
    intro h2
    have h2' : (dKeys (removeKey k d2)).Nodup := nodup_dKeys_removeKey h2
    by_cases hq : q = k
    · subst hq
      simp only [mergeLoop, hlk, List.cons_append, lookupKey_cons, if_pos rfl]
      cases v <;> cases v2 <;> rfl
    · have ihh : lookupKey q ((mergeLoop rest (removeKey k d2)).1
          ++ (mergeLoop rest (removeKey k d2)).2)
          = match lookupKey q rest, lookupKey q (removeKey k d2) with
            | some (JVal.dict a), some (JVal.dict b) =>
              some (JVal.dict ((mergeLoop a b).1 ++ (mergeLoop a b).2))
            | some _, some w2 => some w2
            | some w, none => some w
            | none, o => o := ih h2'
      simp only [mergeLoop, hlk, List.cons_append, lookupKey_cons,
        if_neg (Ne.symm hq)]
      rw [ihh, lookupKey_removeKey_other d2 hq]

theorem containsKey_filter_residual {k : String} {d1 : JDict} (d2 : JDict)
    (h : containsKey k d1 = true) :
    containsKey k (d2.filter (fun e => !containsKey e.1 d1)) = false := by
  induction d2 with
  | nil => simp [containsKey]
  | cons e d ih =>
    obtain ⟨k', v⟩ := e
    by_cases hk : containsKey k' d1
    · simpa [hk] using ih
    · have hne : k' ≠ k := fun he => hk (he ▸ h)
      simpa [hk, hne] using ih

/-- C2: `merge_dicts(base, overlay)` returns the base rewritten so that for
every key in both, two nested dicts are merged recursively and otherwise
the overlay value replaces the base value; keys only in the overlay are
added, keys only in the base keep their value; and the two documented
examples evaluate as stated. -/
theorem C2_merge_dicts_spec :
    (∀ (d1 d2 : JDict) (q : String), (dKeys d2).Nodup →
      (∀ a b, lookupKey q d1 = some (JVal.dict a) →
        lookupKey q d2 = some (JVal.dict b) →
        lookupKey q (merge_dicts d1 d2) = some (JVal.dict (merge_dicts a b))) ∧
      (∀ v v2, lookupKey q d1 = some v → lookupKey q d2 = some v2 →
        (isDictV v = false ∨ isDictV v2 = false) →
        lookupKey q (merge_dicts d1 d2) = some v2) ∧
      (∀ v, lookupKey q d1 = some v → lookupKey q d2 = none →
        lookupKey q (merge_dicts d1 d2) = some v) ∧
      (lookupKey q d1 = none →
        lookupKey q (merge_dicts d1 d2) = lookupKey q d2)) ∧
    merge_dicts [("c", JVal.dict [("a", JVal.int 1)])]
        [("c", JVal.dict [("b", JVal.int 2)])]
      = [("c", JVal.dict [("a", JVal.int 1), ("b", JVal.int 2)])] ∧
    merge_dicts [("c", JVal.int 1)] [("c", JVal.dict [("b", JVal.int 2)])]
      = [("c", JVal.dict [("b", JVal.int 2)])] := by
  refine ⟨?_, ?_, ?_⟩
  · intro d1 d2 q h2
    refine ⟨?_, ?_, ?_, ?_⟩
    · intro a b ha hb
      have h := lookup_mergeLoop d1 d2 q h2
      rw [ha, hb] at h
      exact h
    · intro v v2 hv hv2 hd
      have h := lookup_mergeLoop d1 d2 q h2
      rw [hv, hv2] at h
      cases v <;> cases v2 <;> first
        | exact h
        | simp [isDictV] at hd
    · intro v hv hn
      have h := lookup_mergeLoop d1 d2 q h2
      rw [hv, hn] at h
      cases v <;> exact h
    · intro hn
      have h := lookup_mergeLoop d1 d2 q h2
      rw [hn] at h
      exact h
  · simp [merge_dicts, mergeLoop, lookupKey, removeKey]
  · simp [merge_dicts, mergeLoop, lookupKey, removeKey]

theorem C2_merge_dicts_spec_witness :
    (dKeys [("c", JVal.bool true)]).Nodup ∧
    lookupKey "c" (merge_dicts [("c", JVal.int 1)] [("c", JVal.bool true)])
      = some (JVal.bool true) :=
  ⟨by decide,
    ((C2_merge_dicts_spec.1 [("c", JVal.int 1)] [("c", JVal.bool true)] "c"
      (by decide)).2.1 (JVal.int 1) (JVal.bool true) rfl rfl (Or.inl rfl))⟩

/-- C9: `merge_dicts` also mutates its overlay argument: its final state
keeps exactly the entries whose key does not occur in the base (shared
keys are popped during the walk); the same characterisation applies to an
overlay sub-dict merged into a base sub-dict; and the overlay ends
unchanged if and only if it shares no key with the base. -/
theorem C9_merge_overlay_residual :
    (∀ (d1 d2 : JDict), (dKeys d2).Nodup →
      overlayResidual d1 d2 = d2.filter (fun e => !containsKey e.1 d1)) ∧
    (∀ (d1 d2 : JDict) (k : String), (dKeys d2).Nodup → containsKey k d1 = true →
      containsKey k (overlayResidual d1 d2) = false) ∧
    (∀ (d1 d2 : JDict) (k : String) (a b : JDict), (dKeys b).Nodup →
      lookupKey k d1 = some (JVal.dict a) → lookupKey k d2 = some (JVal.dict b) →
      overlayResidual a b = b.filter (fun e => !containsKey e.1 a)) ∧
    (∀ (d1 d2 : JDict), (dKeys d2).Nodup →
      (overlayResidual d1 d2 = d2 ↔ ∀ e ∈ d2, containsKey e.1 d1 = false)) := by
  have hres : ∀ (d1 d2 : JDict), (dKeys d2).Nodup →
      overlayResidual d1 d2 = d2.filter (fun e => !containsKey e.1 d1) := by
    intro d1 d2 h2
    exact mergeLoop_snd d1 d2 h2
  refine ⟨hres, ?_, ?_, ?_⟩
  · intro d1 d2 k h2 hk
    rw [hres d1 d2 h2]
    exact containsKey_filter_residual d2 hk
  · intro d1 d2 k a b hb _ _
    exact hres a b hb
  · intro d1 d2 h2
    rw [hres d1 d2 h2]
    rw [List.filter_eq_self]
    constructor
    · intro h e he
      have := h e he
      simpa using this
    · intro h e he
      simp [h e he]

theorem C9_merge_overlay_residual_witness :
    (dKeys [("c", JVal.int 2), ("d", JVal.int 3)]).Nodup ∧
    overlayResidual [("c", JVal.int 1)] [("c", JVal.int 2), ("d", JVal.int 3)]
      = [("d", JVal.int 3)] :=
  ⟨by decide, by
    rw [C9_merge_overlay_residual.1 [("c", JVal.int 1)]
      [("c", JVal.int 2), ("d", JVal.int 3)] (by decide)]
    rfl⟩

/-! ## Route template parser (`parse_rule`)

Deterministic embedding of the `RE_PARSE_RULE` regex match at a position:
static text is the run of non-`<` characters; after `<` the optional
converter group (`ident`, optional `(args)`, then `:`) is tried first, and
on failure the bare-variable alternative; the lazy `args` group is the
shortest prefix (newline-free, as `.` does not match newlines) followed by
`)`, `:`, an identifier and `>` — longer prefixes are tried exactly when
the shorter candidate fails to complete the match, which is the regex
backtracking order.  Greedy identifier groups never benefit from
backtracking (a shortened identifier is followed by an identifier
character, never by `(`, `:` or `>`), so the maximal-munch scan below is
faithful. -/

/-- Start character of `[a-zA-Z_][a-zA-Z0-9_]*`. -/
def isIdentStart (c : Char) : Bool := c.isAlpha || c = '_'

/-- Continuation character of `[a-zA-Z_][a-zA-Z0-9_]*`. -/
def isIdentChar (c : Char) : Bool := c.isAlpha || c.isDigit || c = '_'

/-- Maximal-munch identifier: returns (identifier, rest); the identifier
is empty when none starts here. -/
def takeIdent (cs : List Char) : List Char × List Char :=
  match cs with
  | [] => ([], [])
  | c :: rest =>
    if isIdentStart c then (c :: rest.takeWhile isIdentChar, rest.dropWhile isIdentChar)
    else ([], cs)

/-- Matches `variable >`: returns (variable, rest after the bracket). -/
def matchVarEnd (cs : List Char) : Option (List Char × List Char) :=
  let p := takeIdent cs
  if p.1.isEmpty then none
  else
    match p.2 with
    | '>' :: rest => some (p.1, rest)
    | _ => none

/-- Candidate completion of the args group at this split point: requires
`):` then `variable >`. -/
def argsCandidate (cs : List Char) : Option (List Char × List Char) :=
  match cs with
  | ')' :: ':' :: tl => matchVarEnd tl
  | _ => none

/-- Lazy search for the args split: the shortest newline-free prefix whose
continuation completes the placeholder.  Returns (args, variable, rest). -/
def argsSearch : List Char → List Char → Option (List Char × List Char × List Char)
  | _, [] => none
  | acc, c :: tl =>
    match argsCandidate (c :: tl) with
    | some (v, rest) => some (acc.reverse, v, rest)
    | none => if c = '\n' then none else argsSearch (c :: acc) tl

/-- Matches the part of the regex after `<`: returns
(converter?, args?, variable, rest). -/
def matchPlaceholder (cs : List Char) :
    Option (Option (List Char) × Option (List Char) × List Char × List Char) :=
  let p := takeIdent cs
  let fb := (matchVarEnd cs).map (fun vr => (none, none, vr.1, vr.2))
  if p.1.isEmpty then fb
  else
    match p.2 with
    | '(' :: r2 =>
      match argsSearch [] r2 with
      | some (a, v, rest) => some (some p.1, some a, v, rest)
      | none => fb
    | ':' :: r2 =>
      match matchVarEnd r2 with
      | some (v, rest) => some (some p.1, none, v, rest)
      | none => fb
    | _ => fb

/-- One successful `RE_PARSE_RULE.match(rule, pos)`. -/
structure RMatch where
  static : List Char
  converter : Option (List Char)
  args : Option (List Char)
  varName : List Char
  rest : List Char
deriving Repr

/-- `RE_PARSE_RULE.match(rule, pos)` at the current suffix `cs`. -/
def matchRuleAt (cs : List Char) : Option RMatch :=
  let st := cs.takeWhile (fun c => c ≠ '<')
  match cs.dropWhile (fun c => c ≠ '<') with
  | [] => none
  | _ :: r2 =>
    (matchPlaceholder r2).map (fun m => ⟨st, m.1, m.2.1, m.2.2.1, m.2.2.2⟩)

/-- The `ValueError`s raised by `parse_rule`. -/
inductive ParseError where
  | duplicateVariable (name : String)
  | malformedRule (remainder : String)
deriving Repr, DecidableEq

/-- A yielded `(converter, arguments, variable)` triple: `converter` is
`none` for a static part. -/
abbrev Seg := Option String × Option String × String

/-- The `parse_rule` match loop; `used` is `used_names`.  The fuel is
always instantiated above the remaining length (each match consumes at
least the `<`), making the zero case unreachable. -/
def parse_rule_go : Nat → List Char → List (List Char) →
    Except ParseError (List Seg)
  | 0, _, _ => Except.error (ParseError.malformedRule "")
  | fuel + 1, cs, used =>
    match matchRuleAt cs with
    | none =>
      if cs.isEmpty then Except.ok []
      else if cs.any (fun c => c = '>') || cs.any (fun c => c = '<') then
        Except.error (ParseError.malformedRule (String.mk cs))
      else Except.ok [(none, none, String.mk cs)]
    | some m =>
      if m.varName ∈ used then
        Except.error (ParseError.duplicateVariable (String.mk m.varName))
      else
        let conv := match m.converter with
          | some c => String.mk c
          | none => "default"
        let args : Option String := match m.args with
          | some a => if a.isEmpty then none else some (String.mk a)
          | none => none
        let pre : List Seg :=
          if m.static.isEmpty then [] else [(none, none, String.mk m.static)]
        (parse_rule_go fuel m.rest (m.varName :: used)).map
          (fun tail => pre ++ (some conv, args, String.mk m.varName) :: tail)

/-- `parse_rule(rule)`, consumed eagerly (as `parse_url` does). -/
def parse_rule (rule : String) : Except ParseError (List Seg) :=
  parse_rule_go (rule.data.length + 1) rule.data []

/-! ## Converter schema table and `parse_url` -/

/-- Numeric value of a digit run. -/
def digitsToNat (cs : List Char) : Nat :=
  cs.foldl (fun n c => n * 10 + (c.toNat - 48)) 0

/-- Modelled from the external `werkzeug` argument tokenizer: a literal
parses as an integer when it is a (possibly negated) digit run, else it
stays a string.  (The real `_pythonize` also handles floats and booleans,
not needed by any route in scope.) -/
def pythonizeArg (s : String) : JVal :=
  match s.data with
  | [] => JVal.str s
  | '-' :: rest =>
    if rest ≠ [] ∧ rest.all Char.isDigit then JVal.int (-(digitsToNat rest : Int))
    else JVal.str s
  | cs =>
    if cs.all Char.isDigit then JVal.int (digitsToNat cs)
    else JVal.str s

/-- Splits a character list on a separator character. -/
def splitOnChar (sep : Char) : List Char → List (List Char)
  | [] => [[]]
  | c :: tl =>
    let r := splitOnChar sep tl
    if c = sep then [] :: r
    else
      match r with
      | [] => [[c]]
      | h :: t => (c :: h) :: t

/-- First `=` split of one argument item. -/
def splitFirstEq : List Char → Option (List Char × List Char)
  | [] => none
  | c :: tl =>
    if c = '=' then some ([], tl)
    else (splitFirstEq tl).map (fun p => (c :: p.1, p.2))

/-- Modelled external dependency `werkzeug.routing.parse_converter_args`
(the spec's "argument-string tokenizer", outside this repository): items
split on commas; `name=value` items become keyword arguments, the rest
positional; values are pythonized literals. -/
def parse_converter_args (s : String) : List JVal × List (String × JVal) :=
  (splitOnChar ',' s.data).foldl
    (fun acc item =>
      match splitFirstEq item with
      | some (n, v) => (acc.1, acc.2 ++ [(String.mk n, pythonizeArg (String.mk v))])
      | none => (acc.1 ++ [pythonizeArg (String.mk item)], acc.2))
    ([], [])

/-- `get_converter_schema`: JSON schema fragment for a path parameter. -/
def get_converter_schema (converter : String) (args : List JVal)
    (kwargs : List (String × JVal)) : JVal :=
  if converter = "any" then
    JVal.dict [("type", JVal.str "array"),
      ("items", JVal.dict [("type", JVal.str "string"), ("enum", JVal.arr args)])]
  else if converter = "int" then
    JVal.dict ([("type", JVal.str "integer"), ("format", JVal.str "int32")] ++
      (["min", "max"].filterMap
        (fun p => (lookupKey p kwargs).map (fun v => (p ++ "imum", v)))))
  else if converter = "float" then
    JVal.dict [("type", JVal.str "number"), ("format", JVal.str "float")]
  else if converter = "uuid" then
    JVal.dict [("type", JVal.str "string"), ("format", JVal.str "uuid")]
  else if converter = "path" then
    JVal.dict [("type", JVal.str "string"), ("format", JVal.str "path")]
  else if converter = "string" then
    JVal.dict ([("type", JVal.str "string")] ++
      (["length", "maxLength", "minLength"].filterMap
        (fun p => (lookupKey p kwargs).map (fun v => (p, v)))))
  else
    JVal.dict [("type", JVal.str "string")]

/-- One entry of the `parameters` list built by `parse_url`. -/
def paramObj (varName : String) (schema : JVal) : JVal :=
  JVal.dict [("name", JVal.str varName), ("in", JVal.str "path"),
    ("required", JVal.bool true), ("schema", schema)]

/-- `parse_url(path)`: the normalized path and the path parameters. -/
def parse_url (path : String) : Except ParseError (String × List JVal) :=
  (parse_rule path).map (fun segs =>
    segs.foldl
      (fun acc seg =>
        match seg with
        | (none, _, text) => (acc.1 ++ text, acc.2)
        | (some conv, arguments, varName) =>
          let p :=
            match arguments with
            | some a => parse_converter_args a
            | none => ([], [])
          let schema := get_converter_schema conv p.1 p.2
          (acc.1 ++ "\x7b" ++ varName ++ "\x7d",
            acc.2 ++ [paramObj varName schema]))
      ("", []))

/-! ## Parser lemmas -/

/-- `cs` is a `[a-zA-Z_][a-zA-Z0-9_]*` identifier. -/
def isIdentList : List Char → Bool
  | [] => false
  | c :: rest => isIdentStart c && rest.all isIdentChar

theorem takeWhile_append_of (p : Char → Bool) (l₁ l₂ : List Char)
    (h1 : ∀ x ∈ l₁, p x = true) (h2 : ∀ c ∈ l₂.head?, p c = false) :
    (l₁ ++ l₂).takeWhile p = l₁ ∧ (l₁ ++ l₂).dropWhile p = l₂ := by
  induction l₁ with
  | nil =>
    cases l₂ with
    | nil => simp
    | cons c tl =>
      have hc := h2 c (by simp)
      simp [List.takeWhile_cons, List.dropWhile_cons, hc]
  | cons x l₁ ih =>
    have hx := h1 x (by simp)
    have ihh := ih (fun y hy => h1 y (by simp [hy]))
    simp [List.takeWhile_cons, List.dropWhile_cons, hx, ihh.1, ihh.2]

theorem takeIdent_append {a rest : List Char} (ha : isIdentList a = true)
    (hr : ∀ c ∈ rest.head?, isIdentChar c = false) :
    takeIdent (a ++ rest) = (a, rest) := by
  cases a with
  | nil => simp [isIdentList] at ha
  | cons c tl =>
    simp only [isIdentList, Bool.and_eq_true, List.all_eq_true] at ha
    have h := takeWhile_append_of isIdentChar tl rest (fun x hx => ha.2 x hx) hr
    simp [takeIdent, ha.1, List.cons_append, h.1, h.2]

theorem matchVarEnd_append {a rest : List Char} (ha : isIdentList a = true) :
    matchVarEnd (a ++ '>' :: rest) = some (a, rest) := by
  have hti : takeIdent (a ++ '>' :: rest) = (a, '>' :: rest) :=
    takeIdent_append ha (by intro x hx; simp at hx; subst hx; decide)
  cases a with
  | nil => simp [isIdentList] at ha
  | cons c tl =>
    simp only [List.cons_append] at hti ⊢
    simp [matchVarEnd, hti]

theorem matchPlaceholder_bare {a rest : List Char} (ha : isIdentList a = true) :
    matchPlaceholder (a ++ '>' :: rest) = some (none, none, a, rest) := by
  have hti : takeIdent (a ++ '>' :: rest) = (a, '>' :: rest) :=
    takeIdent_append ha (by intro x hx; simp at hx; subst hx; decide)
  have hve : matchVarEnd (a ++ '>' :: rest) = some (a, rest) :=
    matchVarEnd_append ha
  cases a with
  | nil => simp [isIdentList] at ha
  | cons c tl =>
    simp only [List.cons_append] at hti hve ⊢
    simp [matchPlaceholder, hti, hve]

theorem matchRuleAt_simple {s a rest : List Char} (hs : '<' ∉ s)
    (ha : isIdentList a = true) :
    matchRuleAt (s ++ '<' :: (a ++ '>' :: rest))
      = some ⟨s, none, none, a, rest⟩ := by
  have h1 : ∀ x ∈ s, (!decide (x = '<')) = true := by
    intro x hx
    simp
    exact fun he => hs (he ▸ hx)
  have h2 : ∀ c ∈ ('<' :: (a ++ '>' :: rest)).head?, (!decide (c = '<')) = false := by
    intro c hc
    simp at hc
    subst hc
    decide
  have hw := takeWhile_append_of (fun c => !decide (c = '<')) s
    ('<' :: (a ++ '>' :: rest)) h1 h2
  simp [matchRuleAt, hw.1, hw.2, matchPlaceholder_bare ha]

theorem matchRuleAt_none {cs : List Char} (h : '<' ∉ cs) :
    matchRuleAt cs = none := by
  have hdw : cs.dropWhile (fun c => !decide (c = '<')) = [] := by
    rw [List.dropWhile_eq_nil_iff]
    intro x hx
    simp
    exact fun he => h (he ▸ hx)
  simp [matchRuleAt, hdw]

/-- C4: a template containing no parameter placeholder (no `<` and no `>`
anywhere, the placeholder delimiters) parses to itself with an empty
parameter list. -/
theorem C4_no_placeholder_identity (t : String)
    (h1 : '<' ∉ t.data) (h2 : '>' ∉ t.data) :
    parse_url t = Except.ok (t, []) := by
  obtain ⟨cs⟩ := t
  have hm : matchRuleAt cs = none := matchRuleAt_none h1
  cases cs with
  | nil => rfl
  | cons c tl =>
    have hgt : (c :: tl).any (fun x => decide (x = '>')) = false := by
      simp only [List.any_eq_false, decide_eq_true_eq]
      intro x hx he
      exact h2 (he ▸ hx)
    have hlt : (c :: tl).any (fun x => decide (x = '<')) = false := by
      simp only [List.any_eq_false, decide_eq_true_eq]
      intro x hx he
      exact h1 (he ▸ hx)
    simp [parse_url, parse_rule, parse_rule_go, hm, hgt, hlt]
    rfl

theorem C4_no_placeholder_identity_witness :
    '<' ∉ "/health".data ∧ '>' ∉ "/health".data ∧
    parse_url "/health" = Except.ok ("/health", []) :=
  ⟨by decide, by decide,
    C4_no_placeholder_identity "/health" (by decide) (by decide)⟩

theorem parse_rule_go_dup (s₀ s₁ s₂ a : List Char) (used : List (List Char))
    (ha : isIdentList a = true) (h0 : '<' ∉ s₀) (h1 : '<' ∉ s₁)
    (hu : a ∉ used) (n : Nat) (hn : 2 ≤ n) :
    parse_rule_go n (s₀ ++ '<' :: (a ++ '>' :: (s₁ ++ '<' :: (a ++ '>' :: s₂)))) used
      = Except.error (ParseError.duplicateVariable (String.mk a)) := by
  obtain ⟨m, rfl⟩ : ∃ m, n = (m + 1) + 1 := ⟨n - 2, by omega⟩
  have hm1 := @matchRuleAt_simple s₀ a (s₁ ++ '<' :: (a ++ '>' :: s₂)) h0 ha
  have hm2 := @matchRuleAt_simple s₁ a s₂ h1 ha
  rw [parse_rule_go, hm1]
  simp only [if_neg hu]
  rw [parse_rule_go, hm2]
  simp [List.mem_cons, Except.map]

/-- C5: a template in which two placeholders carry the same parameter
name raises the duplicate-name `ValueError` while parsing (the segment
sequence is never completed), and `parse_url` propagates the error to its
caller unchanged. -/
theorem C5_duplicate_parameter_error (s₀ s₁ s₂ a : String)
    (ha : isIdentList a.data = true) (h0 : '<' ∉ s₀.data) (h1 : '<' ∉ s₁.data) :
    parse_rule (s₀ ++ "<" ++ a ++ ">" ++ s₁ ++ "<" ++ a ++ ">" ++ s₂)
      = Except.error (ParseError.duplicateVariable a) ∧
    parse_url (s₀ ++ "<" ++ a ++ ">" ++ s₁ ++ "<" ++ a ++ ">" ++ s₂)
      = Except.error (ParseError.duplicateVariable a) := by
  have hmk : String.mk a.data = a := by cases a; rfl
  have hdata : (s₀ ++ "<" ++ a ++ ">" ++ s₁ ++ "<" ++ a ++ ">" ++ s₂).data
      = s₀.data ++ '<' :: (a.data ++ '>' :: (s₁.data ++ '<' :: (a.data ++ '>' :: s₂.data))) := by
    obtain ⟨l₀⟩ := s₀
    obtain ⟨la⟩ := a
    obtain ⟨l₁⟩ := s₁
    obtain ⟨l₂⟩ := s₂
    simp [String.data_append]
  have hu : a.data ∉ ([] : List (List Char)) := by simp
  have key : ∀ n, 2 ≤ n →
      parse_rule_go n
        (s₀.data ++ '<' :: (a.data ++ '>' :: (s₁.data ++ '<' :: (a.data ++ '>' :: s₂.data)))) []
        = Except.error (ParseError.duplicateVariable a) := by
    intro n hn
    rw [parse_rule_go_dup s₀.data s₁.data s₂.data a.data [] ha h0 h1 hu n hn, hmk]
  have hr : parse_rule (s₀ ++ "<" ++ a ++ ">" ++ s₁ ++ "<" ++ a ++ ">" ++ s₂)
      = Except.error (ParseError.duplicateVariable a) := by
    rw [parse_rule, hdata]
    refine key _ ?_
    simp
    omega
  refine ⟨hr, ?_⟩
  rw [parse_url, hr]
  rfl

theorem C5_duplicate_parameter_error_witness :
    isIdentList "a".data = true ∧ '<' ∉ "/x/".data ∧ '<' ∉ "/y/".data ∧
    parse_url ("/x/" ++ "<" ++ "a" ++ ">" ++ "/y/" ++ "<" ++ "a" ++ ">" ++ "")
      = Except.error (ParseError.duplicateVariable "a") :=
  ⟨by decide, by decide, by decide,
    (C5_duplicate_parameter_error "/x/" "/y/" "" "a"
      (by decide) (by decide) (by decide)).2⟩

/-- C6: parsing `/items/<int(min=1,max=10):id>` yields the normalized
path `/items/{id}` with a single required path parameter `id` whose
schema is integer/int32 with minimum 1 and maximum 10; in general the int
converter maps keyword arguments `min` and `max` to schema keys `minimum`
and `maximum`. -/
theorem C6_int_converter_schema :
    parse_url "/items/<int(min=1,max=10):id>"
      = Except.ok ("/items/{id}",
        [paramObj "id" (JVal.dict [("type", JVal.str "integer"),
          ("format", JVal.str "int32"),
          ("minimum", JVal.int 1), ("maximum", JVal.int 10)])]) ∧
    (∀ (args : List JVal) (kwargs : List (String × JVal)) (mi ma : JVal),
      lookupKey "min" kwargs = some mi → lookupKey "max" kwargs = some ma →
      get_converter_schema "int" args kwargs
        = JVal.dict [("type", JVal.str "integer"), ("format", JVal.str "int32"),
            ("minimum", mi), ("maximum", ma)]) ∧
    (∀ (args : List JVal) (kwargs : List (String × JVal)),
      lookupKey "min" kwargs = none → lookupKey "max" kwargs = none →
      get_converter_schema "int" args kwargs
        = JVal.dict [("type", JVal.str "integer"), ("format", JVal.str "int32")]) := by
  refine ⟨rfl, ?_, ?_⟩
  · intro args kwargs mi ma hmi hma
    simp [get_converter_schema, hmi, hma]
  · intro args kwargs hmi hma
    simp [get_converter_schema, hmi, hma]

theorem C6_int_converter_schema_witness :
    lookupKey "min" [("min", JVal.int 1), ("max", JVal.int 10)] = some (JVal.int 1) ∧
    lookupKey "max" [("min", JVal.int 1), ("max", JVal.int 10)] = some (JVal.int 10) ∧
    get_converter_schema "int" [] [("min", JVal.int 1), ("max", JVal.int 10)]
      = JVal.dict [("type", JVal.str "integer"), ("format", JVal.str "int32"),
          ("minimum", JVal.int 1), ("maximum", JVal.int 10)] :=
  ⟨rfl, rfl,
    C6_int_converter_schema.2.1 [] [("min", JVal.int 1), ("max", JVal.int 10)]
      (JVal.int 1) (JVal.int 10) rfl rfl⟩

/-! ## Handler metadata and the operation aggregator -/

/-- Python truthy `or` on an optional string: `None` and `""` are falsy. -/
def pyOrStr (a : Option String) (b : String) : String :=
  match a with
  | some s => if s = "" then b else s
  | none => b

/-- Python `str.capitalize()`: first character upper-cased, the rest
lower-cased. -/
def pyCapitalize (s : String) : String :=
  match s.data with
  | [] => ""
  | c :: cs => String.mk (c.toUpper :: cs.map Char.toLower)

/-- Python `str.startswith(pre)`. -/
def strStartsWith (s pre : String) : Bool :=
  pre.data.isPrefixOf s.data

/-- Python `str.lower()` (character-wise, as for ASCII method names). -/
def strLower (s : String) : String :=
  String.mk (s.data.map Char.toLower)

/-- `get_summary_desc(func)` on the cleaned docstring: one split on the
first blank line; a one-part docstring is all summary. -/
def get_summary_desc (doc : Option String) : Option String × Option String :=
  match doc with
  | none => (none, none)
  | some d =>
    if d = "" then (none, none)
    else
      match d.splitOn "\n\n" with
      | [] => (none, none)
      | [s] => (some s, none)
      | s :: rest => (some s, some (String.intercalate "\n\n" rest))

/-- The `_openapi` marker on a handler: this system's `OpenAPI` class or
some other registration scheme's (truthy) marker. -/
inductive Decorator where
  | openAPIClass
  | otherScheme (name : String)
deriving DecidableEq, Repr

/-- The inclusion-policy mode. -/
inductive Mode where
  | normal
  | greedy
  | strict
deriving DecidableEq, Repr

/-- `OpenAPI._bypass(func)`: `true` means the route is skipped. -/
def bypass (mode : Mode) (marker : Option Decorator) : Bool :=
  match mode with
  | Mode.greedy => false
  | Mode.strict =>
    match marker with
    | some d => if d = Decorator.openAPIClass then false else true
    | none => true
  | Mode.normal =>
    match marker with
    | some d => if d ≠ Decorator.openAPIClass then true else false
    | none => false

/-- Attributes of a view-class method (`view_func`): the names of the
declared body/form/query models. -/
structure ViewFuncMeta where
  body : Option String
  form : Option String
  query : Option String

/-- Attributes of a registered view function (`func`): `exceptions = []`
models a missing `exceptions` attribute (the decorator only sets it when
non-empty), and `viewMethod m` models
`getattr(getattr(func, "view_class", None), m, None)`. -/
structure FuncMeta where
  name : String
  doc : Option String
  tags : Option (List String)
  exceptions : List (String × String)
  response : Option String
  query : Option String
  body : Option String
  form : Option String
  openapi : Option Decorator
  viewMethod : String → Option ViewFuncMeta

/-- `any(hasattr(func, s) for s in ("query", "body", "form", "response"))`. -/
def hasAnySchema (f : FuncMeta) : Bool :=
  f.query.isSome || f.body.isSome || f.form.isSome || f.response.isSome

/-- The `requestBody` object referencing a schema by name. -/
def requestBodyRef (name : String) : JVal :=
  JVal.dict [("content", JVal.dict [("application/json", JVal.dict
    [("schema", JVal.dict [("$ref", JVal.str ("#/components/schemas/" ++ name))])])])]

/-- The query parameter object appended for a declared query model. -/
def queryParam (name : String) : JVal :=
  JVal.dict [("name", JVal.str name), ("in", JVal.str "query"),
    ("required", JVal.bool true),
    ("schema", JVal.dict [("$ref", JVal.str ("#/components/schemas/" ++ name))])]

/-- The 200 response referencing the declared response model. -/
def successRespRef (name : String) : JVal :=
  JVal.dict [("description", JVal.str "Successful Response"),
    ("content", JVal.dict [("application/json", JVal.dict
      [("schema", JVal.dict [("$ref", JVal.str ("#/components/schemas/" ++ name))])])])]

/-- The `responses` dict of one operation: declared error codes in order,
then the 200 entry (reference or bare), then the 400 validation entry. -/
def buildResponses (exceptions : List (String × String)) (response : Option String)
    (hasAny : Bool) : JDict :=
  let r0 := exceptions.foldl
    (fun acc cm => dictInsert cm.1 (JVal.dict [("description", JVal.str cm.2)]) acc) []
  let has2xx := exceptions.any (fun cm => strStartsWith cm.1 "2")
  let r1 :=
    match response with
    | some n => dictInsert "200" (successRespRef n) r0
    | none =>
      if has2xx then r0
      else dictInsert "200" (JVal.dict [("description", JVal.str "Successful Response")]) r0
  if hasAny then
    dictInsert "400" (JVal.dict [("description", JVal.str "Validation Error")]) r1
  else r1

/-- The Operation: the `spec` dict built per `(path, method)` by
`generate_spec` (source lines 206-279). -/
def buildOperation (f : FuncMeta) (vf : Option ViewFuncMeta) (method : String)
    (pathParams : List JVal) : JDict :=
  let sd := get_summary_desc f.doc
  let spec0 : JDict := [
    ("summary", JVal.str (pyOrStr sd.1 (pyCapitalize f.name))),
    ("description", JVal.str (pyOrStr sd.2 "")),
    ("operationID", JVal.str (f.name ++ "__" ++ strLower method)),
    ("tags", JVal.arr ((f.tags.getD []).map JVal.str))]
  let spec1 :=
    match vf with
    | none => spec0
    | some v =>
      let s1 := match v.body with
        | some b => dictInsert "requestBody" (requestBodyRef b) spec0
        | none => spec0
      match v.form with
      | some fm => dictInsert "requestBody" (requestBodyRef fm) s1
      | none => s1
  let params :=
    match vf with
    | none => pathParams
    | some v =>
      match v.query with
      | some q => pathParams ++ [queryParam q]
      | none => pathParams
  let spec2 := dictInsert "parameters" (JVal.arr params) spec1
  dictInsert "responses"
    (JVal.dict (buildResponses f.exceptions f.response (hasAnySchema f))) spec2

/-- The `responses` sub-dict of an operation. -/
def opResponses (op : JDict) : JDict :=
  match lookupKey "responses" op with
  | some (JVal.dict d) => d
  | _ => []

/-! ## Route table and document assembly -/

/-- One rule of the external route table (`app.url_map`). -/
structure RouteRule where
  rule : String
  endpoint : String
  methods : List String

/-- The route table plus the endpoint-to-view-function mapping. -/
structure AppModel where
  rules : List RouteRule
  view_functions : String → FuncMeta

/-- Constructor configuration of the `OpenAPI` object. -/
structure Config where
  endpoint : String
  urlPrefix : Option String
  mode : Mode
  openapi_version : String
  info : JDict

/-- The `routes` and `tags` dicts accumulated by the `generate_spec`
loop. -/
structure RoutesTags where
  routes : List (String × JDict)
  tags : List (String × JVal)

/-- `for tag in func.tags: if tag not in tags: tags[tag] = {"name": tag}`. -/
def addTags (tags : List (String × JVal)) (fTags : List String) : List (String × JVal) :=
  fTags.foldl
    (fun acc tag =>
      if containsKey tag acc then acc
      else acc ++ [(tag, JVal.dict [("name", JVal.str tag)])]) tags

/-- `routes[path][method] = spec` (the path key is present). -/
def routesSet (routes : List (String × JDict)) (path method : String) (spec : JVal) :
    List (String × JDict) :=
  routes.map (fun pd => if pd.1 = path then (pd.1, dictInsert method spec pd.2) else pd)

/-- The body of the inner `for method in rule.methods` loop. -/
def methodStep (func : FuncMeta) (path : String) (params : List JVal)
    (acc : RoutesTags) (method : String) : RoutesTags :=
  if method = "HEAD" ∨ method = "OPTIONS" then acc
  else
    { routes := routesSet acc.routes path (strLower method)
        (JVal.dict (buildOperation func (func.viewMethod (strLower method)) method params)),
      tags := addTags acc.tags (func.tags.getD []) }

/-- The per-rule body of the `generate_spec` loop: the serving-prefix and
static skips, the parse, the bypass skip, the path-key creation, and the
method loop. -/
def routeStep (cfg : Config) (app : AppModel) (st : RoutesTags) (r : RouteRule) :
    Except ParseError RoutesTags :=
  if strStartsWith r.rule ((cfg.urlPrefix.getD "") ++ cfg.endpoint)
      || strStartsWith r.rule "/static" then Except.ok st
  else
    let func := app.view_functions r.endpoint
    match parse_url r.rule with
    | Except.error e => Except.error e
    | Except.ok pr =>
      if bypass cfg.mode func.openapi then Except.ok st
      else
        let routes0 :=
          if containsKey pr.1 st.routes then st.routes else st.routes ++ [(pr.1, [])]
        Except.ok (r.methods.foldl (methodStep func pr.1 pr.2)
          { routes := routes0, tags := st.tags })

/-- The full route iteration of `generate_spec`. -/
def collectRoutes (cfg : Config) (app : AppModel) : Except ParseError RoutesTags :=
  app.rules.foldlM (routeStep cfg app) ⟨[], []⟩

/-- The definitions-flattening pass over the registered models: each
schema loses its `definitions` key, whose entries are hoisted (later
registrations overwriting earlier ones). -/
def flattenModels (models : List (String × JVal)) : List (String × JVal) × JDict :=
  models.foldl
    (fun acc nm =>
      match nm.2 with
      | JVal.dict d =>
        match lookupKey "definitions" d with
        | some v =>
          let defs := match v with
            | JVal.dict defs => defs
            | _ => []
          (acc.1 ++ [(nm.1, JVal.dict (removeKey "definitions" d))],
            defs.foldl (fun ds kv => dictInsert kv.1 kv.2 ds) acc.2)
        | none => (acc.1 ++ [nm], acc.2)
      | _ => (acc.1 ++ [nm], acc.2))
    ([], [])

/-- `OpenAPI.generate_spec`: assembles the document and overlays the
caller's `extra_props`. -/
def generateSpec (cfg : Config) (app : AppModel) (models : List (String × JVal))
    (extraProps : JDict) : Except ParseError JDict :=
  (collectRoutes cfg app).map (fun rt =>
    let p := flattenModels models
    let data : JDict := [
      ("openapi", JVal.str cfg.openapi_version),
      ("info", JVal.dict cfg.info),
      ("tags", JVal.arr (rt.tags.map Prod.snd)),
      ("paths", JVal.dict (rt.routes.map (fun pd => (pd.1, JVal.dict pd.2)))),
      ("components", JVal.dict [("schemas", JVal.dict p.1)]),
      ("definitions", JVal.dict p.2)]
    merge_dicts data extraProps)

/-- The operation stored in a generated document under (path, method). -/
def docOperation (e : Except ParseError JDict) (path method : String) : Option JDict :=
  match e with
  | Except.ok d =>
    match lookupKey "paths" d with
    | some (JVal.dict ps) =>
      match lookupKey path ps with
      | some (JVal.dict ms) =>
        match lookupKey method ms with
        | some (JVal.dict op) => some op
        | _ => none
      | _ => none
    | _ => none
  | Except.error _ => none

/-- The mutable pieces of an `OpenAPI` instance relevant to its `spec`
property (`cachedSpec` models `self._spec`). -/
structure OpenAPIState where
  cfg : Config
  app : AppModel
  models : List (String × JVal)
  extraProps : JDict
  cachedSpec : Option JDict

/-- The `spec` property: generate and store on first access, afterwards
return the stored document with the state untouched. -/
def specAccess (st : OpenAPIState) : Except ParseError (JDict × OpenAPIState) :=
  match st.cachedSpec with
  | some d => Except.ok (d, st)
  | none =>
    match generateSpec st.cfg st.app st.models st.extraProps with
    | Except.ok d => Except.ok (d, { st with cachedSpec := some d })
    | Except.error e => Except.error e

/-- Merging an empty overlay leaves the base unchanged. -/
theorem merge_dicts_nil (d : JDict) : merge_dicts d [] = d := by
  have h : ∀ d : JDict, mergeLoop d [] = (d, []) := by
    intro d
    induction d with
    | nil => simp [mergeLoop]
    | cons e rest ih =>
      obtain ⟨k, v⟩ := e
      simp [mergeLoop, ih]
  simp [merge_dicts, h]

/-- C7: the first access on an empty cache computes the document and
stores it; any access on a state whose cache holds a document returns the
stored document itself and leaves the state unchanged (no recomputation,
no invalidation); hence two consecutive accesses return the same
document. -/
theorem C7_spec_cached :
    (∀ (st : OpenAPIState) (d : JDict), st.cachedSpec = none →
      generateSpec st.cfg st.app st.models st.extraProps = Except.ok d →
      specAccess st = Except.ok (d, { st with cachedSpec := some d })) ∧
    (∀ (st : OpenAPIState) (d : JDict), st.cachedSpec = some d →
      specAccess st = Except.ok (d, st)) ∧
    (∀ (st st' : OpenAPIState) (d : JDict), specAccess st = Except.ok (d, st') →
      specAccess st' = Except.ok (d, st')) := by
  refine ⟨?_, ?_, ?_⟩
  · intro st d hc hg
    simp [specAccess, hc, hg]
  · intro st d hc
    simp [specAccess, hc]
  · intro st st' d h
    unfold specAccess at h
    cases hc : st.cachedSpec with
    | some c =>
      rw [hc] at h
      obtain ⟨hd, hst⟩ : c = d ∧ st = st' := by
        simpa using h
      subst hd
      subst hst
      simp [specAccess, hc]
    | none =>
      rw [hc] at h
      cases hg : generateSpec st.cfg st.app st.models st.extraProps with
      | error e => rw [hg] at h; simp at h
      | ok d0 =>
        rw [hg] at h
        obtain ⟨hd, hst⟩ : d0 = d ∧ { st with cachedSpec := some d0 } = st' := by
          simpa using h
        subst hd
        rw [← hst]
        simp [specAccess]

@[simp] theorem containsKey_append (q : String) (l₁ l₂ : List (String × α)) :
    containsKey q (l₁ ++ l₂) = (containsKey q l₁ || containsKey q l₂) := by
  induction l₁ with
  | nil => simp
  | cons e l ih =>
    obtain ⟨k, v⟩ := e
    simp [ih, Bool.or_assoc]

/-- A route whose handler is bypassed (and whose template parses) leaves
the loop state untouched. -/
theorem routeStep_bypassed {cfg : Config} {app : AppModel} {r : RouteRule}
    (hpre : (strStartsWith r.rule ((cfg.urlPrefix.getD "") ++ cfg.endpoint)
      || strStartsWith r.rule "/static") = false)
    {pr : String × List JVal} (hp : parse_url r.rule = Except.ok pr)
    (hb : bypass cfg.mode (app.view_functions r.endpoint).openapi = true) :
    ∀ st, routeStep cfg app st r = Except.ok st := by
  intro st
  simp [routeStep, hpre, hp, hb]

@[simp] theorem except_bind_ok {ε β γ : Type} (a : β) (f : β → Except ε γ) :
    (Except.ok a >>= f) = f a := rfl

@[simp] theorem except_bind_error {ε β γ : Type} (e : ε) (f : β → Except ε γ) :
    ((Except.error e : Except ε β) >>= f) = Except.error e := rfl

/-- Deleting a rule whose step is the identity does not change the fold. -/
theorem foldlM_routeStep_skip (cfg : Config) (app : AppModel) (r : RouteRule)
    (hstep : ∀ st, routeStep cfg app st r = Except.ok st) :
    ∀ (l₁ l₂ : List RouteRule) (init : RoutesTags),
      (l₁ ++ r :: l₂).foldlM (routeStep cfg app) init
        = (l₁ ++ l₂).foldlM (routeStep cfg app) init := by
  intro l₁
  induction l₁ with
  | nil =>
    intro l₂ init
    simp only [List.nil_append, List.foldlM_cons, hstep init, except_bind_ok]
  | cons x l ih =>
    intro l₂ init
    simp only [List.cons_append, List.foldlM_cons]
    cases hx : routeStep cfg app init x with
    | error e => rfl
    | ok st => simpa using ih l₂ st

theorem containsKey_routesSet (q path method : String) (spec : JVal)
    (rts : List (String × JDict)) :
    containsKey q (routesSet rts path method spec) = containsKey q rts := by
  induction rts with
  | nil => rfl
  | cons e l ih =>
    obtain ⟨p, d⟩ := e
    by_cases h : p = path <;> simp [routesSet, h] at ih ⊢ <;> rw [ih]

theorem methodFold_containsKey (f : FuncMeta) (p : String) (ps : List JVal)
    (l : List String) (st : RoutesTags) (q : String) :
    containsKey q ((l.foldl (methodStep f p ps) st).routes)
      = containsKey q st.routes := by
  induction l generalizing st with
  | nil => rfl
  | cons m l ih =>
    rw [List.foldl_cons, ih]
    by_cases h : m = "HEAD" ∨ m = "OPTIONS"
    · simp [methodStep, h]
    · simp [methodStep, h, containsKey_routesSet]

/-- A successful loop step only ever grows the set of path keys. -/
theorem routeStep_mono {cfg : Config} {app : AppModel} {st : RoutesTags}
    {r : RouteRule} {st' : RoutesTags}
    (h : routeStep cfg app st r = Except.ok st') {q : String}
    (hq : containsKey q st.routes = true) : containsKey q st'.routes = true := by
  by_cases hpre : (strStartsWith r.rule ((cfg.urlPrefix.getD "") ++ cfg.endpoint)
      || strStartsWith r.rule "/static") = true
  · simp only [routeStep, hpre, if_true] at h
    obtain rfl : st = st' := by simpa using h
    exact hq
  · cases hp : parse_url r.rule with
    | error e =>
      simp only [routeStep, hpre, if_false, hp] at h
      simp at h
    | ok pr =>
      by_cases hb : bypass cfg.mode (app.view_functions r.endpoint).openapi = true
      · simp only [routeStep, hpre, if_false, hp, hb, if_true] at h
        obtain rfl : st = st' := by simpa using h
        exact hq
      · simp only [routeStep, hpre, if_false, hp, hb, if_false] at h
        obtain rfl : _ = st' := by simpa using h
        rw [methodFold_containsKey]
        by_cases hc : containsKey pr.1 st.routes = true <;> simp [hc, hq]

/-- Path keys survive the remainder of a successful fold. -/
theorem foldlM_routeStep_mono (cfg : Config) (app : AppModel) :
    ∀ (l : List RouteRule) (st st' : RoutesTags),
      l.foldlM (routeStep cfg app) st = Except.ok st' →
      ∀ q, containsKey q st.routes = true → containsKey q st'.routes = true := by
  intro l
  induction l with
  | nil =>
    intro st st' h q hq
    obtain rfl : st = st' := by
      have h' : (Except.ok st : Except ParseError RoutesTags) = Except.ok st' := h
      simpa using h'
    exact hq
  | cons x l ih =>
    intro st st' h q hq
    rw [List.foldlM_cons] at h
    cases hx : routeStep cfg app st x with
    | error e => rw [hx] at h; simp at h
    | ok st₁ =>
      rw [hx, except_bind_ok] at h
      exact ih st₁ st' h q (routeStep_mono hx hq)

/-- A non-skipped, non-bypassed route with a parsable template puts its
normalized path into the routes dict. -/
theorem routeStep_adds {cfg : Config} {app : AppModel} {r : RouteRule}
    (hpre : (strStartsWith r.rule ((cfg.urlPrefix.getD "") ++ cfg.endpoint)
      || strStartsWith r.rule "/static") = false)
    {pr : String × List JVal} (hp : parse_url r.rule = Except.ok pr)
    (hb : bypass cfg.mode (app.view_functions r.endpoint).openapi = false) :
    ∀ st, ∃ st', routeStep cfg app st r = Except.ok st'
      ∧ containsKey pr.1 st'.routes = true := by
  intro st
  have heq : routeStep cfg app st r = Except.ok
      (r.methods.foldl (methodStep (app.view_functions r.endpoint) pr.1 pr.2)
        { routes := if containsKey pr.1 st.routes then st.routes
            else st.routes ++ [(pr.1, [])],
          tags := st.tags }) := by
    simp [routeStep, hpre, hp, hb]
  refine ⟨_, heq, ?_⟩
  rw [methodFold_containsKey]
  by_cases hc : containsKey pr.1 st.routes = true <;> simp [hc]

/-- Membership of the route's path in the final routes of a successful
assembly. -/
theorem collectRoutes_includes (cfg : Config) (app : AppModel) {r : RouteRule}
    (hr : r ∈ app.rules)
    (hpre : (strStartsWith r.rule ((cfg.urlPrefix.getD "") ++ cfg.endpoint)
      || strStartsWith r.rule "/static") = false)
    {pr : String × List JVal} (hp : parse_url r.rule = Except.ok pr)
    (hb : bypass cfg.mode (app.view_functions r.endpoint).openapi = false)
    {rt : RoutesTags} (hok : collectRoutes cfg app = Except.ok rt) :
    containsKey pr.1 rt.routes = true := by
  obtain ⟨l₁, l₂, hsplit⟩ := List.append_of_mem hr
  unfold collectRoutes at hok
  rw [hsplit, List.foldlM_append] at hok
  cases h₁ : l₁.foldlM (routeStep cfg app) ⟨[], []⟩ with
  | error e => rw [h₁] at hok; simp at hok
  | ok st₁ =>
    rw [h₁, except_bind_ok, List.foldlM_cons] at hok
    obtain ⟨st₂, hst₂, hkey⟩ := routeStep_adds hpre hp hb st₁
    rw [hst₂, except_bind_ok] at hok
    exact foldlM_routeStep_mono cfg app l₂ st₂ rt hok pr.1 hkey

/-- C1: in "normal" mode the bypass decision is true exactly when the
`_openapi` marker is present and is not this system's class; a route with
such a foreign marker contributes nothing to the assembled routes
(deleting it leaves the assembly unchanged), while a route whose handler
carries no marker at all gets its path included. -/
theorem C1_normal_mode_inclusion :
    (∀ marker : Option Decorator,
      bypass Mode.normal marker = true
        ↔ ∃ d, marker = some d ∧ d ≠ Decorator.openAPIClass) ∧
    (∀ (cfg : Config) (vf : String → FuncMeta) (rules₁ rules₂ : List RouteRule)
      (r : RouteRule) (pr : String × List JVal) (d : Decorator),
      cfg.mode = Mode.normal →
      (strStartsWith r.rule ((cfg.urlPrefix.getD "") ++ cfg.endpoint)
        || strStartsWith r.rule "/static") = false →
      parse_url r.rule = Except.ok pr →
      (vf r.endpoint).openapi = some d → d ≠ Decorator.openAPIClass →
      collectRoutes cfg ⟨rules₁ ++ r :: rules₂, vf⟩
        = collectRoutes cfg ⟨rules₁ ++ rules₂, vf⟩) ∧
    (∀ (cfg : Config) (app : AppModel) (r : RouteRule) (pr : String × List JVal)
      (rt : RoutesTags),
      cfg.mode = Mode.normal → r ∈ app.rules →
      (strStartsWith r.rule ((cfg.urlPrefix.getD "") ++ cfg.endpoint)
        || strStartsWith r.rule "/static") = false →
      parse_url r.rule = Except.ok pr →
      (app.view_functions r.endpoint).openapi = none →
      collectRoutes cfg app = Except.ok rt →
      containsKey pr.1 rt.routes = true) := by
  refine ⟨?_, ?_, ?_⟩
  · intro marker
    cases marker with
    | none => simp [bypass]
    | some d =>
      by_cases hd : d = Decorator.openAPIClass <;> simp [bypass, hd]
  · intro cfg vf rules₁ rules₂ r pr d hmode hpre hp hod hd
    have hb : bypass cfg.mode ((AppModel.mk (rules₁ ++ r :: rules₂) vf).view_functions
        r.endpoint).openapi = true := by
      simp only [hmode, hod, bypass]
      simp [hd]
    exact foldlM_routeStep_skip cfg ⟨rules₁ ++ r :: rules₂, vf⟩ r
      (routeStep_bypassed hpre hp hb) rules₁ rules₂ ⟨[], []⟩
  · intro cfg app r pr rt hmode hr hpre hp hod hok
    have hb : bypass cfg.mode (app.view_functions r.endpoint).openapi = false := by
      simp [hmode, hod, bypass]
    exact collectRoutes_includes cfg app hr hpre hp hb hok

theorem C1_normal_mode_inclusion_witness :
    bypass Mode.normal (some (Decorator.otherScheme "flasgger")) = true ∧
    collectRoutes ⟨"/docs/new/", none, Mode.normal, "3.0.2", []⟩
        ⟨[⟨"/bad", "bad", ["GET"]⟩, ⟨"/good", "good", ["GET"]⟩],
          fun e => if e = "bad"
            then ⟨"bad", none, none, [], none, none, none, none,
              some (Decorator.otherScheme "flasgger"), fun _ => none⟩
            else ⟨"good", none, none, [], none, none, none, none, none, fun _ => none⟩⟩
      = collectRoutes ⟨"/docs/new/", none, Mode.normal, "3.0.2", []⟩
        ⟨[⟨"/good", "good", ["GET"]⟩],
          fun e => if e = "bad"
            then ⟨"bad", none, none, [], none, none, none, none,
              some (Decorator.otherScheme "flasgger"), fun _ => none⟩
            else ⟨"good", none, none, [], none, none, none, none, none, fun _ => none⟩⟩ ∧
    containsKey "/good"
      (RoutesTags.routes ⟨[("/good",
        [("get", JVal.dict (buildOperation
          ⟨"good", none, none, [], none, none, none, none, none, fun _ => none⟩
          none "GET" []))])], []⟩) = true := by
  refine ⟨?_, ?_, ?_⟩
  · exact (C1_normal_mode_inclusion.1 (some (Decorator.otherScheme "flasgger"))).mpr
      ⟨Decorator.otherScheme "flasgger", rfl, by decide⟩
  · exact C1_normal_mode_inclusion.2.1
      ⟨"/docs/new/", none, Mode.normal, "3.0.2", []⟩
      (fun e => if e = "bad"
        then ⟨"bad", none, none, [], none, none, none, none,
          some (Decorator.otherScheme "flasgger"), fun _ => none⟩
        else ⟨"good", none, none, [], none, none, none, none, none, fun _ => none⟩)
      [] [⟨"/good", "good", ["GET"]⟩] ⟨"/bad", "bad", ["GET"]⟩ ("/bad", [])
      (Decorator.otherScheme "flasgger") rfl rfl rfl rfl (by decide)
  · exact C1_normal_mode_inclusion.2.2
      ⟨"/docs/new/", none, Mode.normal, "3.0.2", []⟩
      ⟨[⟨"/good", "good", ["GET"]⟩],
        fun _ => ⟨"good", none, none, [], none, none, none, none, none, fun _ => none⟩⟩
      ⟨"/good", "good", ["GET"]⟩ ("/good", []) _
      rfl (by simp) rfl rfl rfl rfl

/-- C8 (amended): every operation carries the key `"operationID"` (note
the capital `D`; there is no `"operationId"` key) holding
`name__method`, alongside summary, description, tags, parameters and
responses. -/
theorem C8_operationID_key (f : FuncMeta) (vf : Option ViewFuncMeta)
    (method : String) (ps : List JVal) :
    lookupKey "operationID" (buildOperation f vf method ps)
      = some (JVal.str (f.name ++ "__" ++ strLower method)) ∧
    containsKey "operationId" (buildOperation f vf method ps) = false ∧
    containsKey "summary" (buildOperation f vf method ps) = true ∧
    containsKey "description" (buildOperation f vf method ps) = true ∧
    containsKey "tags" (buildOperation f vf method ps) = true ∧
    containsKey "parameters" (buildOperation f vf method ps) = true ∧
    containsKey "responses" (buildOperation f vf method ps) = true := by
  unfold buildOperation
  cases vf with
  | none => refine ⟨?_, ?_, ?_, ?_, ?_, ?_, ?_⟩ <;> simp
  | some v =>
    cases hb : v.body <;> cases hf : v.form <;>
      refine ⟨?_, ?_, ?_, ?_, ?_, ?_, ?_⟩ <;> simp [hb, hf]

/-- The document generated for the one-route example app, before the
(empty) override merge. -/
def operationIDExampleDoc : JDict := [
  ("openapi", JVal.str "3.0.2"),
  ("info", JVal.dict [("title", JVal.str "Service Documents"),
    ("version", JVal.str "latest")]),
  ("tags", JVal.arr []),
  ("paths", JVal.dict [("/h", JVal.dict [("get", JVal.dict (buildOperation
    ⟨"index", none, none, [], none, none, none, none, none, fun _ => none⟩
    none "GET" []))])]),
  ("components", JVal.dict [("schemas", JVal.dict [])]),
  ("definitions", JVal.dict [])]

theorem C8_operationId_counterexample :
    (docOperation (generateSpec
        ⟨"/docs/new/", none, Mode.normal, "3.0.2",
          [("title", JVal.str "Service Documents"), ("version", JVal.str "latest")]⟩
        ⟨[⟨"/h", "h", ["GET", "HEAD", "OPTIONS"]⟩],
          fun _ => ⟨"index", none, none, [], none, none, none, none, none,
            fun _ => none⟩⟩
        [] []) "/h" "get").map (containsKey "operationId") = some false ∧
    (docOperation (generateSpec
        ⟨"/docs/new/", none, Mode.normal, "3.0.2",
          [("title", JVal.str "Service Documents"), ("version", JVal.str "latest")]⟩
        ⟨[⟨"/h", "h", ["GET", "HEAD", "OPTIONS"]⟩],
          fun _ => ⟨"index", none, none, [], none, none, none, none, none,
            fun _ => none⟩⟩
        [] []) "/h" "get").map (containsKey "operationID") = some true := by
  have h0 : generateSpec
      ⟨"/docs/new/", none, Mode.normal, "3.0.2",
        [("title", JVal.str "Service Documents"), ("version", JVal.str "latest")]⟩
      ⟨[⟨"/h", "h", ["GET", "HEAD", "OPTIONS"]⟩],
        fun _ => ⟨"index", none, none, [], none, none, none, none, none,
          fun _ => none⟩⟩
      [] [] = Except.ok (merge_dicts operationIDExampleDoc []) := rfl
  rw [h0, merge_dicts_nil]
  exact ⟨rfl, rfl⟩

theorem dictInsert_eq_append {k : String} {d : List (String × α)} (v : α)
    (h : containsKey k d = false) : dictInsert k v d = d ++ [(k, v)] := by
  induction d with
  | nil => rfl
  | cons e d ih =>
    obtain ⟨k', v'⟩ := e
    simp only [containsKey_cons, Bool.or_eq_false_iff, decide_eq_false_iff_not] at h
    simp [dictInsert, h.1, ih h.2]

/-- Folding `responses[code] = {"description": msg}` over exception
entries with distinct codes appends them in order. -/
theorem exceptions_fold_eq :
    ∀ (l : List (String × String)) (acc : JDict),
      (∀ cm ∈ l, containsKey cm.1 acc = false) → (l.map Prod.fst).Nodup →
      l.foldl (fun acc cm =>
          dictInsert cm.1 (JVal.dict [("description", JVal.str cm.2)]) acc) acc
        = acc ++ l.map (fun cm => (cm.1, JVal.dict [("description", JVal.str cm.2)])) := by
  intro l
  induction l with
  | nil => intro acc _ _; simp
  | cons cm l ih =>
    intro acc hacc hnd
    obtain ⟨c, m⟩ := cm
    simp only [List.map_cons, List.nodup_cons] at hnd
    rw [List.foldl_cons, dictInsert_eq_append _ (hacc (c, m) (by simp))]
    rw [ih (acc ++ [(c, JVal.dict [("description", JVal.str m)])]) ?_ hnd.2]
    · simp
    · intro e he
      rw [containsKey_append]
      have h1 := hacc e (by simp [he])
      have h2 : e.1 ≠ c := by
        intro hec
        refine hnd.1 ?_
        rw [← hec]
        exact List.mem_map_of_mem Prod.fst he
      simp [h1, h2, Ne.symm h2, containsKey]

theorem lookupKey_exceptions_map :
    ∀ {l : List (String × String)}, (l.map Prod.fst).Nodup →
      ∀ {code msg : String}, (code, msg) ∈ l →
      lookupKey code
          (l.map (fun cm => (cm.1, JVal.dict [("description", JVal.str cm.2)])))
        = some (JVal.dict [("description", JVal.str msg)]) := by
  intro l
  induction l with
  | nil =>
    intro _ code msg h
    simp at h
  | cons cm l ih =>
    intro hnd code msg hmem
    obtain ⟨c, m⟩ := cm
    simp only [List.map_cons, List.nodup_cons] at hnd
    rcases List.mem_cons.1 hmem with heq | hmem'
    · obtain ⟨rfl, rfl⟩ : c = code ∧ m = msg := by
        obtain ⟨h1, h2⟩ := Prod.mk.inj heq.symm
        exact ⟨h1, h2⟩
      simp
    · have hc : c ≠ code := by
        intro hcc
        refine hnd.1 ?_
        rw [hcc]
        exact List.mem_map_of_mem Prod.fst hmem'
      simp [hc, ih hnd.2 hmem']

theorem lookupKey_exceptions_map_rev :
    ∀ {l : List (String × String)} {code : String} {v : JVal},
      lookupKey code
          (l.map (fun cm => (cm.1, JVal.dict [("description", JVal.str cm.2)])))
        = some v →
      ∃ msg, (code, msg) ∈ l ∧ v = JVal.dict [("description", JVal.str msg)] := by
  intro l
  induction l with
  | nil =>
    intro code v h
    simp at h
  | cons cm l ih =>
    intro code v h
    obtain ⟨c, m⟩ := cm
    by_cases hc : c = code
    · subst hc
      simp at h
      exact ⟨m, by simp, h.symm⟩
    · simp [hc] at h
      obtain ⟨msg, hm, hv⟩ := ih h
      exact ⟨msg, by simp [hm], hv⟩

/-- C3 (amended): in every aggregated operation's responses dict, each
declared error code keeps its declared message, except that a declared
200 is overwritten when a response type is declared and a declared 400 is
overwritten by the synthesized Validation Error entry when any of
query/body/form/response is declared; a declared response type makes
responses 200 the `$ref` entry; with no response type and no declared 2xx
code the bare 200 is synthesized; and the Validation Error 400 entry is
present iff any of query/body/form/response is declared or
("400", "Validation Error") is itself declared. -/
theorem C3_responses_amended (f : FuncMeta) (vf : Option ViewFuncMeta)
    (method : String) (ps : List JVal)
    (hnd : (f.exceptions.map Prod.fst).Nodup) :
    (lookupKey "responses" (buildOperation f vf method ps)
      = some (JVal.dict (buildResponses f.exceptions f.response (hasAnySchema f)))) ∧
    (∀ code msg, (code, msg) ∈ f.exceptions →
      ¬ (code = "200" ∧ f.response.isSome = true) →
      ¬ (code = "400" ∧ hasAnySchema f = true) →
      lookupKey code (buildResponses f.exceptions f.response (hasAnySchema f))
        = some (JVal.dict [("description", JVal.str msg)])) ∧
    (∀ n, f.response = some n →
      lookupKey "200" (buildResponses f.exceptions f.response (hasAnySchema f))
        = some (successRespRef n)) ∧
    (f.response = none →
      f.exceptions.any (fun cm => strStartsWith cm.1 "2") = false →
      lookupKey "200" (buildResponses f.exceptions f.response (hasAnySchema f))
        = some (JVal.dict [("description", JVal.str "Successful Response")])) ∧
    (lookupKey "400" (buildResponses f.exceptions f.response (hasAnySchema f))
        = some (JVal.dict [("description", JVal.str "Validation Error")])
      ↔ (hasAnySchema f = true ∨ ("400", "Validation Error") ∈ f.exceptions)) := by
  have hr0 : f.exceptions.foldl (fun acc cm =>
      dictInsert cm.1 (JVal.dict [("description", JVal.str cm.2)]) acc) []
      = f.exceptions.map (fun cm => (cm.1, JVal.dict [("description", JVal.str cm.2)])) := by
    rw [exceptions_fold_eq f.exceptions [] (fun cm _ => rfl) hnd]
    simp
  refine ⟨?_, ?_, ?_, ?_, ?_⟩
  · unfold buildOperation
    simp
  · intro code msg hmem h200 h400
    have hlk := lookupKey_exceptions_map hnd hmem
    unfold buildResponses
    rw [hr0]
    by_cases hA : hasAnySchema f = true
    · have hc400 : code ≠ "400" := fun he => h400 ⟨he, hA⟩
      rw [if_pos hA, lookupKey_dictInsert_other _ _ hc400]
      cases hresp : f.response with
      | some n =>
        have hc200 : code ≠ "200" := fun he => h200 ⟨he, by rw [hresp]; rfl⟩
        rw [lookupKey_dictInsert_other _ _ hc200, hlk]
      | none =>
        by_cases h2 : f.exceptions.any (fun cm => strStartsWith cm.1 "2") = true
        · rw [if_pos h2, hlk]
        · have hc200 : code ≠ "200" := by
            intro he
            refine h2 ?_
            rw [List.any_eq_true]
            exact ⟨(code, msg), hmem, by rw [he]; rfl⟩
          rw [if_neg h2, lookupKey_dictInsert_other _ _ hc200, hlk]
    · have hA' : hasAnySchema f = false := by simpa using hA
      rw [hA']
      simp only [Bool.false_eq_true, if_false]
      cases hresp : f.response with
      | some n =>
        have : f.response.isSome = true := by rw [hresp]; rfl
        have hc200 : code ≠ "200" := fun he => h200 ⟨he, this⟩
        rw [lookupKey_dictInsert_other _ _ hc200, hlk]
      | none =>
        by_cases h2 : f.exceptions.any (fun cm => strStartsWith cm.1 "2") = true
        · rw [if_pos h2, hlk]
        · have hc200 : code ≠ "200" := by
            intro he
            refine h2 ?_
            rw [List.any_eq_true]
            exact ⟨(code, msg), hmem, by rw [he]; rfl⟩
          rw [if_neg h2, lookupKey_dictInsert_other _ _ hc200, hlk]
  · intro n hresp
    unfold buildResponses
    rw [hresp]
    by_cases hA : hasAnySchema f = true
    · rw [if_pos hA, lookupKey_dictInsert_other _ _ (by decide), lookupKey_dictInsert_self]
    · have hA' : hasAnySchema f = false := by simpa using hA
      rw [hA']
      simp only [Bool.false_eq_true, if_false]
      rw [lookupKey_dictInsert_self]
  · intro hresp h2
    unfold buildResponses
    rw [hresp, h2]
    by_cases hA : hasAnySchema f = true
    · rw [if_pos hA]
      simp only [Bool.false_eq_true, if_false]
      rw [lookupKey_dictInsert_other _ _ (by decide), lookupKey_dictInsert_self]
    · have hA' : hasAnySchema f = false := by simpa using hA
      rw [hA']
      simp only [Bool.false_eq_true, if_false]
      rw [lookupKey_dictInsert_self]
  · constructor
    · intro h
      by_cases hA : hasAnySchema f = true
      · exact Or.inl hA
      · right
        have hA' : hasAnySchema f = false := by simpa using hA
        unfold buildResponses at h
        rw [hA'] at h
        simp only [Bool.false_eq_true, if_false] at h
        have h400 : lookupKey "400" (f.exceptions.map
            (fun cm => (cm.1, JVal.dict [("description", JVal.str cm.2)])))
            = some (JVal.dict [("description", JVal.str "Validation Error")]) := by
          cases hresp : f.response with
          | some n =>
            rw [hresp] at h
            rw [← hr0, ← @lookupKey_dictInsert_other _ "200" "400"
              (successRespRef n) _ (by decide)]
            exact h
          | none =>
            rw [hresp] at h
            by_cases h2 : f.exceptions.any (fun cm => strStartsWith cm.1 "2") = true
            · rw [if_pos h2] at h
              rw [← hr0]
              exact h
            · rw [if_neg h2] at h
              rw [← hr0, ← @lookupKey_dictInsert_other _ "200" "400"
                (JVal.dict [("description", JVal.str "Successful Response")]) _ (by decide)]
              exact h
        obtain ⟨msg, hmem, hv⟩ := lookupKey_exceptions_map_rev h400
        obtain rfl : msg = "Validation Error" := by
          injection hv with h1
          injection h1 with h2 h3
          obtain ⟨h4, h5⟩ := Prod.mk.inj h2
          injection h5 with h6
          exact h6.symm
        exact hmem
    · intro h
      rcases h with hA | hmem
      · unfold buildResponses
        rw [if_pos hA, lookupKey_dictInsert_self]
      · by_cases hA : hasAnySchema f = true
        · unfold buildResponses
          rw [if_pos hA, lookupKey_dictInsert_self]
        · have hA' : hasAnySchema f = false := by simpa using hA
          have hlk := lookupKey_exceptions_map hnd hmem
          unfold buildResponses
          rw [hA']
          simp only [Bool.false_eq_true, if_false]
          rw [hr0]
          cases hresp : f.response with
          | some n => rw [lookupKey_dictInsert_other _ _ (by decide), hlk]
          | none =>
            by_cases h2 : f.exceptions.any (fun cm => strStartsWith cm.1 "2") = true
            · rw [if_pos h2, hlk]
            · rw [if_neg h2, lookupKey_dictInsert_other _ _ (by decide), hlk]

theorem C3_responses_amended_witness :
    ((List.map Prod.fst ([("404", "Not Found")] : List (String × String))).Nodup) ∧
    lookupKey "404" (buildResponses [("404", "Not Found")] none false)
      = some (JVal.dict [("description", JVal.str "Not Found")]) :=
  ⟨by decide,
    (C3_responses_amended
      ⟨"f", none, none, [("404", "Not Found")], none, none, none, none, none,
        fun _ => none⟩
      none "GET" [] (by decide)).2.1 "404" "Not Found" (by simp)
      (by simp) (by simp)⟩

/-- C3 (counterexample to the claim as stated): with a declared
("400", "custom") error and a declared response type, the operation's
responses entry for "400" carries "Validation Error", not the declared
message. -/
theorem C3_declared_code_overwritten :
    ¬ (∀ code msg, (code, msg) ∈ ([("400", "custom")] : List (String × String)) →
        lookupKey code (opResponses (buildOperation
          ⟨"f", none, none, [("400", "custom")], some "T", none, none, none, none,
            fun _ => none⟩ none "GET" []))
          = some (JVal.dict [("description", JVal.str msg)])) := by
  intro h
  have h4 := h "400" "custom" (by simp)
  have hval : lookupKey "400" (opResponses (buildOperation
      ⟨"f", none, none, [("400", "custom")], some "T", none, none, none, none,
        fun _ => none⟩ none "GET" []))
      = some (JVal.dict [("description", JVal.str "Validation Error")]) := rfl
  rw [hval] at h4
  simp at h4

/-- C10: when the view-class method declares both a body and a form
model, the operation carries exactly one `requestBody`, and it references
the form model (the form assignment overwrites the body one). -/
theorem C10_form_overwrites_body (f : FuncMeta) (v : ViewFuncMeta)
    (method : String) (ps : List JVal) (b fm : String)
    (hb : v.body = some b) (hf : v.form = some fm) :
    lookupKey "requestBody" (buildOperation f (some v) method ps)
      = some (requestBodyRef fm) ∧
    countKey "requestBody" (buildOperation f (some v) method ps) = 1 := by
  unfold buildOperation
  refine ⟨?_, ?_⟩
  · simp [hb, hf]
  · simp only [hb, hf]
    rw [countKey_dictInsert_other _ _ (by decide)]
    rw [countKey_dictInsert_other _ _ (by decide)]
    rw [countKey_dictInsert_of_contains _ (by simp)]
    rw [countKey_dictInsert_of_not_contains _ (by simp [containsKey])]
    simp [countKey]

theorem C10_form_overwrites_body_witness :
    (ViewFuncMeta.body ⟨some "B", some "F", none⟩ = some "B") ∧
    (ViewFuncMeta.form ⟨some "B", some "F", none⟩ = some "F") ∧
    lookupKey "requestBody"
      (buildOperation ⟨"f", none, none, [], none, none, none, none, none, fun _ => none⟩
        (some ⟨some "B", some "F", none⟩) "POST" [])
      = some (requestBodyRef "F") ∧
    countKey "requestBody"
      (buildOperation ⟨"f", none, none, [], none, none, none, none, none, fun _ => none⟩
        (some ⟨some "B", some "F", none⟩) "POST" []) = 1 :=
  ⟨rfl, rfl,
    (C10_form_overwrites_body
      ⟨"f", none, none, [], none, none, none, none, none, fun _ => none⟩
      ⟨some "B", some "F", none⟩ "POST" [] "B" "F" rfl rfl).1,
    (C10_form_overwrites_body
      ⟨"f", none, none, [], none, none, none, none, none, fun _ => none⟩
      ⟨some "B", some "F", none⟩ "POST" [] "B" "F" rfl rfl).2⟩

theorem C7_spec_cached_witness :
    ({ cfg := ⟨"/docs/new/", none, Mode.normal, "3.0.2", []⟩
       app := ⟨[], fun _ => ⟨"f", none, none, [], none, none, none, none, none, fun _ => none⟩⟩
       models := []
       extraProps := []
       cachedSpec := some [("openapi", JVal.str "3.0.2")] } : OpenAPIState).cachedSpec
      = some [("openapi", JVal.str "3.0.2")] ∧
    specAccess
      { cfg := ⟨"/docs/new/", none, Mode.normal, "3.0.2", []⟩
        app := ⟨[], fun _ => ⟨"f", none, none, [], none, none, none, none, none, fun _ => none⟩⟩
        models := []
        extraProps := []
        cachedSpec := some [("openapi", JVal.str "3.0.2")] }
      = Except.ok ([("openapi", JVal.str "3.0.2")],
        { cfg := ⟨"/docs/new/", none, Mode.normal, "3.0.2", []⟩
          app := ⟨[], fun _ => ⟨"f", none, none, [], none, none, none, none, none, fun _ => none⟩⟩
          models := []
          extraProps := []
          cachedSpec := some [("openapi", JVal.str "3.0.2")] }) :=
  ⟨rfl, C7_spec_cached.2.1 _ [("openapi", JVal.str "3.0.2")] rfl⟩

end FlaskPydantic
